import Mathlib

/-!
Shallow embedding of the core of the `ray-trace` Monte-Carlo path tracer
(Rust sources under `src/`): vector algebra (`src/vec.rs`, `src/math/vec.rs`),
rays (`src/ray.rs`), hit records and the hit-list query (`src/hit.rs`),
the sphere primitive (`src/sphere.rs`), materials (`src/material.rs`),
and the renderer helpers and integrator (`src/render.rs`, `src/main.rs`).

Machine floats (`f64`) are modelled by real numbers; `f64::INFINITY`, used
as the upper bound of a hit interval, is modelled by `⊤ : WithTop ℝ`.
Mutation through `&mut` references is modelled by explicit state passing:
a Rust method writing through `&mut rec` becomes a Lean function returning
the updated record.  Rust `panic!`/`Option::unwrap` failure is modelled by
`Option` results (`none` = panic).  The thread RNG is modelled by an oracle
stream supplying the values the code draws.
-/

noncomputable section

/-- `Vec3` from `src/vec.rs` / `src/math/vec.rs`: a 3-component vector of
`f64`, modelled over `ℝ`. -/
structure Vec3 where
  x : ℝ
  y : ℝ
  z : ℝ

namespace Vec3

/-- `impl Add for Vec3`. -/
instance : Add Vec3 := ⟨fun a b => ⟨a.x + b.x, a.y + b.y, a.z + b.z⟩⟩

/-- `impl Sub for Vec3`. -/
instance : Sub Vec3 := ⟨fun a b => ⟨a.x - b.x, a.y - b.y, a.z - b.z⟩⟩

/-- `impl Neg for Vec3`. -/
instance : Neg Vec3 := ⟨fun a => ⟨-a.x, -a.y, -a.z⟩⟩

/-- `impl Mul for Vec3` (component-wise product). -/
instance : Mul Vec3 := ⟨fun a b => ⟨a.x * b.x, a.y * b.y, a.z * b.z⟩⟩

/-- `impl Mul<f64> for Vec3`: scalar product `v * k`. -/
def mulS (v : Vec3) (k : ℝ) : Vec3 := ⟨v.x * k, v.y * k, v.z * k⟩

/-- `impl Div<f64> for Vec3`: scalar division `v / k`. -/
def divS (v : Vec3) (k : ℝ) : Vec3 := ⟨v.x / k, v.y / k, v.z / k⟩

/-- `Vec3::length_squared`. -/
def length_squared (v : Vec3) : ℝ := v.x * v.x + v.y * v.y + v.z * v.z

/-- `Vec3::length`. -/
noncomputable def length (v : Vec3) : ℝ := Real.sqrt v.length_squared

/-- `Vec3::near_zero`: all components below `1e-8` in absolute value. -/
def near_zero (v : Vec3) : Prop :=
  |v.x| < (1e-8 : ℝ) ∧ |v.y| < (1e-8 : ℝ) ∧ |v.z| < (1e-8 : ℝ)

instance (v : Vec3) : Decidable v.near_zero := by
  unfold near_zero; infer_instance

/-- `Vec3::dot`. -/
def dot (v other : Vec3) : ℝ := v.x * other.x + v.y * other.y + v.z * other.z

/-- `Vec3::unit_vector`: `*self / self.length()`. -/
noncomputable def unit_vector (v : Vec3) : Vec3 := v.divS v.length

/-- `Vec3::reflect`: `*self - n * 2.0 * self.dot(&n)`. -/
def reflect (v : Vec3) (n : Vec3) : Vec3 := v - (n.mulS 2.0).mulS (v.dot n)

/-- `Vec3::refract`.  Note the Rust source reads
`let cos_theta = -self.dot(&n).min(1.0);`, which by method-call precedence
is `-(self.dot(&n).min(1.0))`, and the square-root argument passes through
`.abs()` before `.sqrt()`. -/
noncomputable def refract (v : Vec3) (n : Vec3) (etai_over_etat : ℝ) : Vec3 :=
  let cos_theta := -(min (v.dot n) 1)
  let r_out_perp := (v + n.mulS cos_theta).mulS etai_over_etat
  let r_out_parallel := (n.mulS (-1)).mulS (Real.sqrt |1 - r_out_perp.length_squared|)
  r_out_perp + r_out_parallel

/-- `Vec3::X_HAT`. -/
def X_HAT : Vec3 := ⟨1, 0, 0⟩

/-- `Point::ORIGIN` from `src/render.rs`. -/
def ORIGIN : Vec3 := ⟨0, 0, 0⟩

end Vec3

/-- `Point` alias from `src/render.rs`. -/
abbrev Point := Vec3

/-- `Color` alias from `src/render.rs`. -/
abbrev Color := Vec3

/-- `Ray` from `src/ray.rs`: origin plus direction.  (`src/math/ray.rs`
adds unused `t_max`/`time`/`medium` fields; no code under consideration
reads them, so they are omitted.) -/
structure Ray where
  origin : Point
  dir : Vec3

/-- `Ray::at`: `origin + dir * t`. -/
def Ray.at (r : Ray) (t : ℝ) : Point := r.origin + r.dir.mulS t

/-- `Lambertian` from `src/material.rs`. -/
structure Lambertian where
  albedo : Color

/-- `Metal` from `src/material.rs`. -/
structure Metal where
  albedo : Color

/-- `Dielectric` from `src/material.rs`. -/
structure Dielectric where
  ir : ℝ

/-- `MatKind` from `src/material.rs`: the closed material variant. -/
inductive MatKind where
  | lambertian (l : Lambertian)
  | metal (m : Metal)
  | dielectric (d : Dielectric)

/-- `MatKind::default()`: a default `Lambertian` (whose `albedo` is the
`Vec3` default, all zeros). -/
def MatKind.defaultMat : MatKind := .lambertian ⟨⟨0, 0, 0⟩⟩

/-- `HitRecord` from `src/hit.rs`, instantiated at `Mat = MatKind` as in
`src/render.rs`.  `front_face` is `Option<bool>` in the source. -/
structure HitRecord where
  p : Point
  normal : Vec3
  t : ℝ
  material : MatKind
  front_face : Option Bool

/-- `HitRecord::empty()`: `(ORIGIN, X_HAT, 0.0, Mat::default(), None)`. -/
def HitRecord.empty : HitRecord :=
  ⟨Vec3.ORIGIN, Vec3.X_HAT, 0, MatKind.defaultMat, none⟩

/-- `HitRecord::set_face_normal`: stores
`front_face = Some(ray.dir.dot(outward_normal) < 0.0)` and then the normal
`+outward_normal` on a front face, `-outward_normal` otherwise.  The
mutation of `self` becomes returning the updated record. -/
def HitRecord.set_face_normal (rec : HitRecord) (ray : Ray) (outward_normal : Vec3) :
    HitRecord :=
  let ff : Bool := decide (ray.dir.dot outward_normal < 0)
  { rec with front_face := some ff,
             normal := if ff then outward_normal else -outward_normal }

/-- `Sphere` from `src/sphere.rs`. -/
structure Sphere where
  center : Point
  r : ℝ
  material : MatKind

namespace Sphere

/-- The record built by the success path of `Sphere::hit`
(`src/sphere.rs` lines 55-66) for the accepted root `t`.  Every field of
the record is overwritten there, so the result does not depend on the
record passed in by reference. -/
def mkHitRecord (s : Sphere) (ray : Ray) (t : ℝ) : HitRecord :=
  let p := ray.at t
  let normal := ((p - s.center).divS s.r).unit_vector
  let rec1 : HitRecord := { p := p, normal := normal, t := t,
                            material := MatKind.defaultMat, front_face := none }
  let outward_normal := (rec1.p - s.center).divS s.r
  let rec2 := rec1.set_face_normal ray outward_normal
  { rec2 with material := s.material }

/-- `Sphere::hit` (`impl Hit for Sphere`, `src/sphere.rs`).  The `&mut
HitRecord` out-parameter becomes the second component of the result; on a
miss the record is returned unchanged.  `t_max : WithTop ℝ` so that the
caller `ray_color` can pass `f64::INFINITY`. -/
def hit (s : Sphere) (ray : Ray) (t_min : ℝ) (t_max : WithTop ℝ)
    (hit_record : HitRecord) : Bool × HitRecord :=
  let oc : Vec3 := ray.origin - s.center
  let a := ray.dir.length_squared
  let half_b := oc.dot ray.dir
  let c := oc.length_squared - s.r * s.r
  let discriminant := half_b * half_b - a * c
  if discriminant < 0 then (false, hit_record)
  else
    let sqrtd := Real.sqrt discriminant
    let root1 := (-half_b - sqrtd) / a
    if root1 < t_min ∨ t_max < (root1 : WithTop ℝ) then
      let root2 := (-half_b + sqrtd) / a
      if root2 < t_min ∨ t_max < (root2 : WithTop ℝ) then (false, hit_record)
      else (true, s.mkHitRecord ray root2)
    else (true, s.mkHitRecord ray root1)

/-- The parameter `t` chosen by the root-selection logic of `Sphere::hit`
(`none` on a miss).  Helper used to reason about `Sphere.hit`. -/
def chosenT (s : Sphere) (ray : Ray) (t_min : ℝ) (t_max : WithTop ℝ) : Option ℝ :=
  let oc : Vec3 := ray.origin - s.center
  let a := ray.dir.length_squared
  let half_b := oc.dot ray.dir
  let c := oc.length_squared - s.r * s.r
  let discriminant := half_b * half_b - a * c
  if discriminant < 0 then none
  else
    let sqrtd := Real.sqrt discriminant
    let root1 := (-half_b - sqrtd) / a
    if root1 < t_min ∨ t_max < (root1 : WithTop ℝ) then
      let root2 := (-half_b + sqrtd) / a
      if root2 < t_min ∨ t_max < (root2 : WithTop ℝ) then none
      else some root2
    else some root1

end Sphere

/-- `Hittable` from `src/hit.rs`: the closed primitive variant. -/
inductive Hittable where
  | sphere (s : Sphere)

/-- `impl Hit for Hittable`: dispatch to the sphere. -/
def Hittable.hit (h : Hittable) (ray : Ray) (t_min : ℝ) (t_max : WithTop ℝ)
    (rec : HitRecord) : Bool × HitRecord :=
  match h with
  | .sphere s => s.hit ray t_min t_max rec

/-- The chosen hit parameter of a `Hittable`. -/
def Hittable.chosenT (h : Hittable) (ray : Ray) (t_min : ℝ) (t_max : WithTop ℝ) :
    Option ℝ :=
  match h with
  | .sphere s => s.chosenT ray t_min t_max

/-- The success record of a `Hittable` at parameter `t`. -/
def Hittable.mkHitRecord (h : Hittable) (ray : Ray) (t : ℝ) : HitRecord :=
  match h with
  | .sphere s => s.mkHitRecord ray t

/-- `HitList` from `src/hit.rs`: `inner: Vec<Hittable>`. -/
def HitList := List Hittable

instance : Membership Hittable HitList :=
  inferInstanceAs (Membership Hittable (List Hittable))

/-- The loop body of `HitList::hit` (`src/hit.rs` lines 91-108), with the
loop state — `temp_rec`, `hit_anything`, `closest_so_far`, and the `&mut
rec` out-parameter — threaded explicitly. -/
def hitLoop (ray : Ray) (t_min : ℝ) :
    List Hittable → HitRecord → Bool → WithTop ℝ → HitRecord → Bool × HitRecord
  | [], _, hit_anything, _, rec => (hit_anything, rec)
  | h :: rest, temp_rec, hit_anything, closest_so_far, rec =>
    let res := h.hit ray t_min closest_so_far temp_rec
    if res.1 then hitLoop ray t_min rest res.2 true ((res.2.t : ℝ) : WithTop ℝ) res.2
    else hitLoop ray t_min rest res.2 hit_anything closest_so_far rec

/-- `HitList::hit`: `temp_rec` starts at `HitRecord::empty()`,
`hit_anything` at `false`, `closest_so_far` at `t_max`. -/
def HitList.hit (l : HitList) (ray : Ray) (t_min : ℝ) (t_max : WithTop ℝ)
    (rec : HitRecord) : Bool × HitRecord :=
  hitLoop ray t_min l HitRecord.empty false t_max rec

/-- The primitive-and-parameter pair that survives the `HitList::hit`
fold starting from upper bound `closest`: each hit shrinks the interval to
its own `t`, and a later primitive whose candidate also fits the shrunken
interval (including at equal `t`) replaces the record. -/
def bestFrom (ray : Ray) (t_min : ℝ) : List Hittable → WithTop ℝ → Option (Hittable × ℝ)
  | [], _ => none
  | h :: rest, closest =>
    match h.chosenT ray t_min closest with
    | none => bestFrom ray t_min rest closest
    | some t => some ((bestFrom ray t_min rest ((t : ℝ) : WithTop ℝ)).getD (h, t))

/-- Oracle model of `ThreadRng`: a stream of the values the code draws.
`uni` supplies `rng.gen::<f64>()` results and `uvec` supplies
`Vec3::random_unit_vector(rng)` results (the rejection-sampling loop of
`random_in_unit_sphere` has no a-priori bound, so its outcome is supplied
by the oracle directly); `idx` is the stream position, advanced on every
draw. -/
structure Rng where
  idx : ℕ
  uni : ℕ → ℝ
  uvec : ℕ → Vec3

/-- Draw one uniform variate (`rng.gen::<f64>()`). -/
def Rng.genF64 (g : Rng) : ℝ × Rng := (g.uni g.idx, { g with idx := g.idx + 1 })

/-- Draw one random unit vector (`Vec3::random_unit_vector`). -/
def Rng.genUnitVec (g : Rng) : Vec3 × Rng := (g.uvec g.idx, { g with idx := g.idx + 1 })

/-- `Scatter` from `src/material.rs`. -/
structure Scatter where
  is_scattered : Bool
  attenuation : Color
  scattered : Ray

/-- `Lambertian::scatter`: `d = normal + random_unit_vector`, replaced by
`normal` when near zero; always scatters. -/
def Lambertian.scatter (l : Lambertian) (_r_in : Ray) (hit_record : HitRecord)
    (rng : Rng) : Scatter × Rng :=
  let (rv, rng') := rng.genUnitVec
  let scatter_direction := hit_record.normal + rv
  let scatter_direction :=
    if scatter_direction.near_zero then hit_record.normal else scatter_direction
  (⟨true, l.albedo, ⟨hit_record.p, scatter_direction⟩⟩, rng')

/-- `Metal::scatter`: reflect the unit incoming direction about the
recorded normal; `is_scattered = (reflected · normal) > 0`. -/
def Metal.scatter (m : Metal) (r_in : Ray) (hit_record : HitRecord)
    (_rng : Rng) : Scatter :=
  let reflected := (r_in.dir.unit_vector).reflect hit_record.normal
  let scattered : Ray := ⟨hit_record.p, reflected⟩
  ⟨decide (scattered.dir.dot hit_record.normal > 0), m.albedo, scattered⟩

/-- `Dielectric::reflectance` (Schlick). -/
def Dielectric.reflectance (cos ref_idx : ℝ) : ℝ :=
  let r0 := (1 - ref_idx) / (1 + ref_idx)
  let r0_sq := r0 * r0
  r0_sq + (1 - r0_sq) * (1 - cos) ^ 5

/-- `Dielectric::scatter`.  `hit_record.front_face.unwrap()` panics when
`front_face` is `None`; the panic is modelled by `none`.  The uniform
variate is drawn only when `cannot_refract` is false, mirroring the
short-circuit of `||` in the source. -/
def Dielectric.scatter (d : Dielectric) (r_in : Ray) (hit_record : HitRecord)
    (rng : Rng) : Option (Scatter × Rng) :=
  match hit_record.front_face with
  | none => none
  | some ff =>
    let attn : Color := ⟨0.98, 0.98, 0.98⟩
    let refr_ratio := if ff then 1 / d.ir else d.ir
    let unit_dir := r_in.dir.unit_vector
    let cos_theta : ℝ := -(min (unit_dir.dot hit_record.normal) 1)
    let sin_theta : ℝ := Real.sqrt (1 - cos_theta * cos_theta)
    let cannot_refract := refr_ratio * sin_theta > 1
    if cannot_refract then
      some (⟨true, attn, ⟨hit_record.p, unit_dir.reflect hit_record.normal⟩⟩, rng)
    else
      let (u, rng') := rng.genF64
      if Dielectric.reflectance cos_theta refr_ratio > u then
        some (⟨true, attn, ⟨hit_record.p, unit_dir.reflect hit_record.normal⟩⟩, rng')
      else
        some (⟨true, attn, ⟨hit_record.p, unit_dir.refract hit_record.normal refr_ratio⟩⟩, rng')

/-- `impl Material for MatKind`: dispatch. -/
def MatKind.scatter (mat : MatKind) (r_in : Ray) (hit_record : HitRecord)
    (rng : Rng) : Option (Scatter × Rng) :=
  match mat with
  | .lambertian l => some (l.scatter r_in hit_record rng)
  | .metal m => some (m.scatter r_in hit_record rng, rng)
  | .dielectric d => d.scatter r_in hit_record rng

/-- `clamp` from `src/render.rs`. -/
def clampR (x min max : ℝ) : ℝ :=
  if x < min then min else if x > max then max else x

/-- Rust `as u8` on an `f64`: saturating cast (round toward zero, clamp to
`[0, 255]`, used in `write_color_to_pixel_buffer` on values that are never
NaN).  On the reals this equals the floor clamped to `[0, 255]`. -/
def f64AsU8 (x : ℝ) : ℤ := max 0 (min 255 ⌊x⌋)

/-- `write_color_to_pixel_buffer` from `src/render.rs`: divide by the
sample count, gamma-correct with a square root per channel, scale by 256,
clamp to `[0, 0.999]` and cast to `u8`. -/
def write_color_to_pixel_buffer (color : Color) (samples_per_pixel : ℕ) :
    ℤ × ℤ × ℤ :=
  let scale : ℝ := 1 / (samples_per_pixel : ℝ)
  let cx := Real.sqrt (scale * color.x)
  let cy := Real.sqrt (scale * color.y)
  let cz := Real.sqrt (scale * color.z)
  let ir := f64AsU8 (256 * clampR cx 0 0.999)
  let ig := f64AsU8 (256 * clampR cy 0 0.999)
  let ib := f64AsU8 (256 * clampR cz 0 0.999)
  (ir, ig, ib)

/-- `slice::chunks(3)` on a byte buffer whose length is a multiple of
three (as produced by `main`), yielding the `(R, G, B)` triples. -/
def chunk3 : List ℕ → List (ℕ × ℕ × ℕ)
  | a :: b :: c :: rest => (a, b, c) :: chunk3 rest
  | _ => []

/-- `write_buffer` from `src/render.rs`: `pixels.chunks(3).rev()`, one
`R G B` triple per emitted line.  The emission is modelled as the list of
triples in emission order. -/
def write_buffer (pixels : List ℕ) : List (ℕ × ℕ × ℕ) :=
  (chunk3 pixels).reverse

/-- The image buffer as filled by `main` (`src/main.rs` lines 89-109):
row-major, pixel `(i, j)` at bytes `3·(j·width + i) ..`, with `P i j` the
`(R, G, B)` value stored for pixel `(i, j)`. -/
def mkBuffer (width height : ℕ) (P : ℕ → ℕ → ℕ × ℕ × ℕ) : List ℕ :=
  (List.range height).flatMap fun j =>
    (List.range width).flatMap fun i => [(P i j).1, (P i j).2.1, (P i j).2.2]

/-- `ray_color` from `src/render.rs`: the recursive integrator.  `none`
models the (unreachable in practice) `unwrap` panic inside a material
scatter. -/
def ray_color (ray : Ray) (world : HitList) (depth : ℤ) (rng : Rng) :
    Option Color :=
  if _h : depth ≤ 0 then some ⟨0, 0, 0⟩
  else
    let res := world.hit ray 0.001 ⊤ HitRecord.empty
    if res.1 then
      match res.2.material.scatter ray res.2 rng with
      | none => none
      | some (sc, rng') =>
        if sc.is_scattered then
          (ray_color sc.scattered world (depth - 1) rng').map (fun c => c * sc.attenuation)
        else some ⟨0, 0, 0⟩
    else
      let unit_dir := ray.dir.unit_vector
      let t := (unit_dir.y + 1) * 0.5
      some ((⟨1, 1, 1⟩ : Color).mulS (1 - t) + (⟨0.5, 0.7, 1.0⟩ : Color).mulS t)
termination_by depth.toNat
decreasing_by
  simp_wf
  omega

/-- A square root that records the float behaviour `sqrt(negative) = NaN`:
`none` models the NaN. -/
def checkedSqrt (x : ℝ) : Option ℝ :=
  if x < 0 then none else some (Real.sqrt x)

/-- `Vec3::refract` with its single square-root site routed through
`checkedSqrt`: `none` would mean the refracted vector picks up a NaN.
All other operations are closed on finite reals. -/
def refractChecked (v : Vec3) (n : Vec3) (etai_over_etat : ℝ) : Option Vec3 :=
  let cos_theta := -(min (v.dot n) 1)
  let r_out_perp := (v + n.mulS cos_theta).mulS etai_over_etat
  (checkedSqrt |1 - r_out_perp.length_squared|).map fun s =>
    r_out_perp + (n.mulS (-1)).mulS s

/-- The refraction formula exactly as the spec states it:
`r⊥ = η·(v + cos θ·n)` with `cos θ = min(−v·n, 1)` and
`r∥ = −√(1 − ‖r⊥‖²)·n` (no absolute value under the root). -/
def specRefractClaimed (v : Vec3) (n : Vec3) (eta : ℝ) : Vec3 :=
  let cos_t := min (-(v.dot n)) 1
  let r_perp := (v + n.mulS cos_t).mulS eta
  let r_par := n.mulS (-(Real.sqrt (1 - r_perp.length_squared)))
  r_perp + r_par

/-- The refraction formula as amended to match the code:
`r⊥ = η·(v + cos θ·n)` with `cos θ = max(−v·n, −1)` (the code clamps the
dot product from above at `1` *before* negating) and
`r∥ = −√|1 − ‖r⊥‖²|·n` (the root argument is passed through `abs`). -/
def specRefractAmended (v : Vec3) (n : Vec3) (eta : ℝ) : Vec3 :=
  let cos_t := max (-(v.dot n)) (-1)
  let r_perp := (v + n.mulS cos_t).mulS eta
  let r_par := n.mulS (-(Real.sqrt |1 - r_perp.length_squared|))
  r_perp + r_par

/-- `Dielectric::scatter` as the amended spec describes it:
`η = front_face ? (1/ir) : ir`, `u = unit(D)`,
`cos θ = max(−u·n, −1)` (same clamp as the amended `refract`),
`sin θ = √(1 − cos² θ)`, total internal reflection iff `η·sin θ > 1`,
reflect also when the drawn variate is below the Schlick reflectance,
otherwise refract; attenuation `(0.98, 0.98, 0.98)`; always scattered. -/
def specDielectricScatter (d : Dielectric) (r_in : Ray) (hit_record : HitRecord)
    (rng : Rng) : Option (Scatter × Rng) :=
  match hit_record.front_face with
  | none => none
  | some ff =>
    let eta := if ff then 1 / d.ir else d.ir
    let u := r_in.dir.unit_vector
    let cos_t := max (-(u.dot hit_record.normal)) (-1)
    let sin_t := Real.sqrt (1 - cos_t ^ 2)
    if eta * sin_t > 1 then
      some (⟨true, ⟨0.98, 0.98, 0.98⟩, ⟨hit_record.p, u.reflect hit_record.normal⟩⟩, rng)
    else
      let (variate, rng') := rng.genF64
      if variate < Dielectric.reflectance cos_t eta then
        some (⟨true, ⟨0.98, 0.98, 0.98⟩, ⟨hit_record.p, u.reflect hit_record.normal⟩⟩, rng')
      else
        some (⟨true, ⟨0.98, 0.98, 0.98⟩, ⟨hit_record.p, u.refract hit_record.normal eta⟩⟩, rng')

/-- The emission order claimed for the writer: rows top-down (`j = H−1`
first) and, within each row, columns left-to-right (`i = 0 .. W−1`). -/
def claimedEmission (width height : ℕ) (P : ℕ → ℕ → ℕ × ℕ × ℕ) :
    List (ℕ × ℕ × ℕ) :=
  (List.range height).reverse.flatMap fun j =>
    (List.range width).map fun i => P i j

/-- The emission order the code actually produces: rows top-down and,
within each row, columns right-to-left (`i = W−1 .. 0`). -/
def actualEmission (width height : ℕ) (P : ℕ → ℕ → ℕ × ℕ × ℕ) :
    List (ℕ × ℕ × ℕ) :=
  (List.range height).reverse.flatMap fun j =>
    (List.range width).reverse.map fun i => P i j

/-! ### Basic vector lemmas -/

@[simp] theorem Vec3.add_def (a b : Vec3) :
    a + b = ⟨a.x + b.x, a.y + b.y, a.z + b.z⟩ := rfl

@[simp] theorem Vec3.sub_def (a b : Vec3) :
    a - b = ⟨a.x - b.x, a.y - b.y, a.z - b.z⟩ := rfl

@[simp] theorem Vec3.neg_def (a : Vec3) : -a = ⟨-a.x, -a.y, -a.z⟩ := rfl

@[simp] theorem Vec3.mul_def (a b : Vec3) :
    a * b = ⟨a.x * b.x, a.y * b.y, a.z * b.z⟩ := rfl

theorem Sphere.hit_eq_chosenT (s : Sphere) (ray : Ray) (t_min : ℝ) (t_max : WithTop ℝ)
    (rec : HitRecord) :
    s.hit ray t_min t_max rec =
      match s.chosenT ray t_min t_max with
      | none => (false, rec)
      | some t => (true, s.mkHitRecord ray t) := by
  simp only [Sphere.hit, Sphere.chosenT]
  split_ifs <;> rfl

theorem Hittable.hit_eq_chosen (h : Hittable) (ray : Ray) (t_min : ℝ)
    (t_max : WithTop ℝ) (rec : HitRecord) :
    h.hit ray t_min t_max rec =
      match h.chosenT ray t_min t_max with
      | none => (false, rec)
      | some t => (true, h.mkHitRecord ray t) := by
  cases h with
  | sphere s => exact s.hit_eq_chosenT ray t_min t_max rec

theorem Vec3.length_squared_nonneg (v : Vec3) : 0 ≤ v.length_squared := by
  unfold length_squared
  nlinarith [mul_self_nonneg v.x, mul_self_nonneg v.y, mul_self_nonneg v.z]

theorem Vec3.length_squared_neg (v : Vec3) : (-v).length_squared = v.length_squared := by
  simp only [Vec3.neg_def, Vec3.length_squared]
  ring

theorem Vec3.dot_neg (v w : Vec3) : v.dot (-w) = -(v.dot w) := by
  cases v; cases w; simp [Vec3.dot]; ring

/-! ### C5: the integrator at exhausted depth -/

/-- C5.  For every ray, world and RNG state, `ray_color` called with
`depth ≤ 0` returns exactly the color `(0, 0, 0)`: the zero-depth check
precedes the world query, so the result is black for every world and
every material. -/
theorem ray_color_depth_le_zero_black (ray : Ray) (world : HitList) (depth : ℤ)
    (rng : Rng) (h : depth ≤ 0) :
    ray_color ray world depth rng = some ⟨0, 0, 0⟩ := by
  rw [ray_color]
  exact dif_pos h

/-- Witness for C5 at `depth = 0` on the empty world. -/
theorem ray_color_depth_le_zero_black_witness :
    (0 : ℤ) ≤ 0 ∧
      ray_color ⟨Vec3.ORIGIN, ⟨0, 0, 1⟩⟩ [] 0 ⟨0, fun _ => 0, fun _ => Vec3.ORIGIN⟩ =
        some ⟨0, 0, 0⟩ :=
  ⟨le_refl 0,
   ray_color_depth_le_zero_black ⟨Vec3.ORIGIN, ⟨0, 0, 1⟩⟩ [] 0
     ⟨0, fun _ => 0, fun _ => Vec3.ORIGIN⟩ (le_refl 0)⟩

/-! ### C7: the metal scatter -/

/-- C7.  The metal scatter always returns the ray `Ray(p, reflected)` with
`reflected = u − 2·(u·n)·n` the reflection of the unit incoming direction
`u` about the recorded normal `n`, attenuation equal to the albedo, and
`scattered = true` exactly when `(reflected · n) > 0`. -/
theorem metal_scatter_spec (m : Metal) (r_in : Ray) (rec : HitRecord) (rng : Rng) :
    (m.scatter r_in rec rng).scattered =
        ⟨rec.p, r_in.dir.unit_vector -
                  rec.normal.mulS (2 * (r_in.dir.unit_vector.dot rec.normal))⟩ ∧
    (m.scatter r_in rec rng).attenuation = m.albedo ∧
    ((m.scatter r_in rec rng).is_scattered = true ↔
      (r_in.dir.unit_vector -
         rec.normal.mulS (2 * (r_in.dir.unit_vector.dot rec.normal))).dot rec.normal > 0) := by
  have hrefl : (r_in.dir.unit_vector).reflect rec.normal =
      r_in.dir.unit_vector -
        rec.normal.mulS (2 * (r_in.dir.unit_vector.dot rec.normal)) := by
    cases h1 : r_in.dir.unit_vector; cases h2 : rec.normal
    simp [Vec3.reflect, Vec3.mulS, Vec3.dot]
    refine ⟨by ring, by ring, by ring⟩
  refine ⟨?_, rfl, ?_⟩
  · simp [Metal.scatter, hrefl]
  · simp only [Metal.scatter, hrefl, decide_eq_true_eq]

/-! ### C9: no NaN out of refract -/

/-- C9.  For `η ≤ 1`, a unit normal and any (finite) incident vector, the
refracted vector is NaN-free: the only NaN source in `Vec3::refract` is
the square root, whose argument passes through `.abs()` first, so the
NaN-tracking evaluation always succeeds and agrees with the real-valued
model.  (Real numbers model finite floats; overflow to infinity is outside
the model.) -/
theorem refract_no_nan (v n : Vec3) (eta : ℝ) (h1 : eta ≤ 1) (h2 : n.length = 1) :
    refractChecked v n eta = some (v.refract n eta) := by
  simp only [refractChecked, checkedSqrt, Vec3.refract]
  rw [if_neg (not_lt.2 (abs_nonneg _))]
  rfl

/-- Witness for C9 at `v = (1, 2, 3)`, `n = (0, 0, 1)`, `η = 1`. -/
theorem refract_no_nan_witness :
    (1 : ℝ) ≤ 1 ∧ (⟨0, 0, 1⟩ : Vec3).length = 1 ∧
      refractChecked ⟨1, 2, 3⟩ ⟨0, 0, 1⟩ 1 = some (Vec3.refract ⟨1, 2, 3⟩ ⟨0, 0, 1⟩ 1) := by
  have hn : (⟨0, 0, 1⟩ : Vec3).length = 1 := by
    simp [Vec3.length, Vec3.length_squared]
  exact ⟨le_refl 1, hn, refract_no_nan ⟨1, 2, 3⟩ ⟨0, 0, 1⟩ 1 (le_refl 1) hn⟩

/-! ### C8: gamma correction and quantization -/

theorem clampR_nonneg (x m : ℝ) (hm : 0 ≤ m) : 0 ≤ clampR x 0 m := by
  unfold clampR
  split_ifs <;> linarith

theorem clampR_le (x m : ℝ) (hm : 0 ≤ m) : clampR x 0 m ≤ m := by
  unfold clampR
  split_ifs <;> linarith

/-- The saturating `as u8` cast agrees with the floor on `[0, 256)`. -/
theorem f64AsU8_eq_floor (y : ℝ) (h0 : 0 ≤ y) (h1 : y < 256) : f64AsU8 y = ⌊y⌋ := by
  unfold f64AsU8
  have hf0 : 0 ≤ ⌊y⌋ := Int.floor_nonneg.2 h0
  have hf1 : ⌊y⌋ < 256 := Int.floor_lt.2 (by exact_mod_cast h1)
  omega

/-- C8.  For every accumulated color and sample count `N > 0` the pixel
written is, per channel, `⌊256·clamp(√(channel/N), 0, 0.999)⌋`: the
division by `N`, the gamma-2 square root, the clamp and the saturating
`u8` cast compose to exactly that floor. -/
theorem write_color_gamma_quantize (c : Color) (N : ℕ) (hN : 0 < N) :
    write_color_to_pixel_buffer c N =
      (⌊(256 : ℝ) * clampR (Real.sqrt (c.x / (N : ℝ))) 0 0.999⌋,
       ⌊(256 : ℝ) * clampR (Real.sqrt (c.y / (N : ℝ))) 0 0.999⌋,
       ⌊(256 : ℝ) * clampR (Real.sqrt (c.z / (N : ℝ))) 0 0.999⌋) := by
  have key : ∀ t : ℝ,
      f64AsU8 (256 * clampR (Real.sqrt (1 / (N : ℝ) * t)) 0 0.999) =
        ⌊(256 : ℝ) * clampR (Real.sqrt (t / (N : ℝ))) 0 0.999⌋ := by
    intro t
    rw [one_div_mul_eq_div]
    apply f64AsU8_eq_floor
    · exact mul_nonneg (by norm_num) (clampR_nonneg _ _ (by norm_num))
    · have h := clampR_le (Real.sqrt (t / (N : ℝ))) 0.999 (by norm_num)
      nlinarith
  simp only [write_color_to_pixel_buffer, key]

/-- Witness for C8: accumulated `(0.25, 0.25, 0.25)` over `N = 1` sample
quantizes to `128` per channel. -/
theorem write_color_gamma_quantize_witness :
    0 < 1 ∧ write_color_to_pixel_buffer ⟨0.25, 0.25, 0.25⟩ 1 = (128, 128, 128) := by
  refine ⟨Nat.one_pos, ?_⟩
  rw [write_color_gamma_quantize ⟨0.25, 0.25, 0.25⟩ 1 Nat.one_pos]
  have hs : Real.sqrt ((Vec3.mk 0.25 0.25 0.25).x / ((1 : ℕ) : ℝ)) = 0.5 := by
    rw [show ((Vec3.mk 0.25 0.25 0.25).x / ((1 : ℕ) : ℝ)) = (0.5 : ℝ) ^ 2 by norm_num,
        Real.sqrt_sq (by norm_num)]
  have hcl : clampR (0.5 : ℝ) 0 0.999 = 0.5 := by
    unfold clampR
    rw [if_neg (by norm_num), if_neg (by norm_num)]
  have hfl : ⌊(256 : ℝ) * (0.5 : ℝ)⌋ = (128 : ℤ) := by
    rw [show (256 : ℝ) * (0.5 : ℝ) = ((128 : ℤ) : ℝ) by norm_num, Int.floor_intCast]
  rw [hs, hcl, hfl]

/-! ### C3: emission order of the PPM pixel writer -/

theorem chunk3_flatMap_triple {α : Type} (l : List α) (f : α → ℕ × ℕ × ℕ)
    (rest : List ℕ) :
    chunk3 ((l.flatMap fun x => [(f x).1, (f x).2.1, (f x).2.2]) ++ rest) =
      l.map f ++ chunk3 rest := by
  induction l with
  | nil => simp
  | cons a t ih =>
    rw [List.flatMap_cons, List.append_assoc]
    show ((f a).1, (f a).2.1, (f a).2.2) ::
        chunk3 ((t.flatMap fun x => [(f x).1, (f x).2.1, (f x).2.2]) ++ rest) =
      f a :: (List.map f t ++ chunk3 rest)
    rw [ih]

theorem chunk3_mkBuffer (width height : ℕ) (P : ℕ → ℕ → ℕ × ℕ × ℕ) :
    chunk3 (mkBuffer width height P) =
      (List.range height).flatMap fun j => (List.range width).map fun i => P i j := by
  unfold mkBuffer
  generalize (List.range height) = js
  induction js with
  | nil => rfl
  | cons j t ih =>
    rw [List.flatMap_cons, List.flatMap_cons]
    have h := chunk3_flatMap_triple (List.range width) (fun i => P i j)
      (t.flatMap fun j2 => (List.range width).flatMap fun i => [(P i j2).1, (P i j2).2.1, (P i j2).2.2])
    rw [h, ih]

/-- C3, amended.  The writer emits the buffer's triples in reverse flat
order: rows top-down (`j = H−1` first) but, within each emitted row, the
columns right-to-left (`i = W−1 .. 0`), one `R G B` triple per line — not
left-to-right as claimed. -/
theorem write_buffer_emission_order (width height : ℕ) (P : ℕ → ℕ → ℕ × ℕ × ℕ) :
    write_buffer (mkBuffer width height P) = actualEmission width height P := by
  unfold write_buffer actualEmission
  rw [chunk3_mkBuffer, List.reverse_flatMap]
  refine List.flatMap_congr ?_ -- may not exist; fallback below
  intro j _
  simp [List.map_reverse]

/-- C3, counterexample to the claim as stated: with a 2×1 image whose
pixels are `(0,0,0)` at `i = 0` and `(1,1,1)` at `i = 1`, the writer emits
the `i = 1` triple first, not the `i = 0` one. -/
theorem write_buffer_not_left_to_right :
    write_buffer (mkBuffer 2 1 fun i _ => (i, i, i)) ≠
      claimedEmission 2 1 (fun i _ => (i, i, i)) := by
  decide

/-! ### C10: no mutation of the record on a miss -/

theorem Sphere.hit_miss_frame (s : Sphere) (ray : Ray) (t_min : ℝ)
    (t_max : WithTop ℝ) (rec : HitRecord)
    (h : (s.hit ray t_min t_max rec).1 = false) :
    (s.hit ray t_min t_max rec).2 = rec := by
  rw [s.hit_eq_chosenT ray t_min t_max rec] at h ⊢
  cases hc : s.chosenT ray t_min t_max with
  | none => rfl
  | some t => rw [hc] at h; exact absurd h (by simp)

theorem hitLoop_stays_true (ray : Ray) (t_min : ℝ) (l : List Hittable)
    (temp : HitRecord) (closest : WithTop ℝ) (rec : HitRecord) :
    (hitLoop ray t_min l temp true closest rec).1 = true := by
  induction l generalizing temp closest rec with
  | nil => rfl
  | cons h rest ih =>
    rw [hitLoop]
    split
    · exact ih _ _ _
    · exact ih _ _ _

theorem hitLoop_miss_frame (ray : Ray) (t_min : ℝ) (l : List Hittable)
    (temp : HitRecord) (hit_anything : Bool) (closest : WithTop ℝ) (rec : HitRecord)
    (h : (hitLoop ray t_min l temp hit_anything closest rec).1 = false) :
    (hitLoop ray t_min l temp hit_anything closest rec).2 = rec := by
  induction l generalizing temp hit_anything closest rec with
  | nil => rfl
  | cons hd rest ih =>
    rw [hitLoop] at h ⊢
    by_cases hb : (hd.hit ray t_min closest temp).1
    · rw [if_pos hb] at h
      exact absurd h (by rw [hitLoop_stays_true]; simp)
    · rw [if_neg hb] at h ⊢
      exact ih _ _ _ _ h

/-- C10.  If `Sphere::hit` or `HitList::hit` reports no hit in the
interval, the record passed by mutable reference is returned exactly as it
came in: every early-return miss path precedes the first field write. -/
theorem hit_miss_leaves_record (ray : Ray) (t_min : ℝ) (t_max : WithTop ℝ)
    (rec : HitRecord) :
    (∀ s : Sphere, (s.hit ray t_min t_max rec).1 = false →
       (s.hit ray t_min t_max rec).2 = rec) ∧
    (∀ l : HitList, (l.hit ray t_min t_max rec).1 = false →
       (l.hit ray t_min t_max rec).2 = rec) := by
  refine ⟨fun s h => s.hit_miss_frame ray t_min t_max rec h, fun l h => ?_⟩
  exact hitLoop_miss_frame ray t_min l HitRecord.empty false t_max rec h

/-- Witness for C10: a sphere behind the ray origin (both roots negative)
is a miss, and both queries leave the record untouched. -/
theorem hit_miss_leaves_record_witness :
    (Sphere.hit ⟨⟨0, 0, -2⟩, 1, MatKind.defaultMat⟩ ⟨Vec3.ORIGIN, ⟨0, 0, 1⟩⟩
        0 ⊤ HitRecord.empty).1 = false ∧
    (Sphere.hit ⟨⟨0, 0, -2⟩, 1, MatKind.defaultMat⟩ ⟨Vec3.ORIGIN, ⟨0, 0, 1⟩⟩
        0 ⊤ HitRecord.empty).2 = HitRecord.empty ∧
    (HitList.hit [.sphere ⟨⟨0, 0, -2⟩, 1, MatKind.defaultMat⟩]
        ⟨Vec3.ORIGIN, ⟨0, 0, 1⟩⟩ 0 ⊤ HitRecord.empty).1 = false ∧
    (HitList.hit [.sphere ⟨⟨0, 0, -2⟩, 1, MatKind.defaultMat⟩]
        ⟨Vec3.ORIGIN, ⟨0, 0, 1⟩⟩ 0 ⊤ HitRecord.empty).2 = HitRecord.empty := by
  have hs : (Sphere.hit ⟨⟨0, 0, -2⟩, 1, MatKind.defaultMat⟩ ⟨Vec3.ORIGIN, ⟨0, 0, 1⟩⟩
      0 ⊤ HitRecord.empty).1 = false := by
    simp only [Sphere.hit, Vec3.ORIGIN, Vec3.sub_def, Vec3.dot, Vec3.length_squared]
    norm_num [Real.sqrt_one]
  have hl : (HitList.hit [.sphere ⟨⟨0, 0, -2⟩, 1, MatKind.defaultMat⟩]
      ⟨Vec3.ORIGIN, ⟨0, 0, 1⟩⟩ 0 ⊤ HitRecord.empty).1 = false := by
    simp only [HitList.hit, hitLoop, Hittable.hit]
    rw [if_neg (by rw [hs]; simp)]
  refine ⟨hs, (hit_miss_leaves_record _ _ _ _).1 _ hs, hl,
    (hit_miss_leaves_record _ _ _ _).2 _ hl⟩

/-! ### C2: the refraction formula -/

theorem neg_min_one (a : ℝ) : -(min a 1) = max (-a) (-1) := by
  rcases le_total a 1 with h | h
  · rw [min_eq_left h, max_eq_left (neg_le_neg h)]
  · rw [min_eq_right h, max_eq_right (neg_le_neg h)]

theorem Vec3.mulS_neg_one_mulS (n : Vec3) (s : ℝ) :
    (n.mulS (-1)).mulS s = n.mulS (-s) := by
  simp only [Vec3.mulS, Vec3.mk.injEq]
  refine ⟨by ring, by ring, by ring⟩

/-- C2, amended.  `refract` realizes Snell's law with the clamp applied
*before* negation — `cos θ = max(−v·n, −1)`, not `min(−v·n, 1)` — and with
the square-root argument passed through an absolute value:
`r∥ = −√|1 − ‖r⊥‖²|·n`; the dielectric scatter computes its `cos θ` and
`sin θ = √(1 − cos² θ)` with the same clamp. -/
theorem refract_and_dielectric_clamp_amended :
    (∀ (v n : Vec3) (eta : ℝ), Vec3.refract v n eta = specRefractAmended v n eta) ∧
    (∀ (d : Dielectric) (r_in : Ray) (rec : HitRecord) (rng : Rng),
       d.scatter r_in rec rng = specDielectricScatter d r_in rec rng) := by
  constructor
  · intro v n eta
    simp only [Vec3.refract, specRefractAmended, neg_min_one, Vec3.mulS_neg_one_mulS]
  · intro d r_in rec rng
    unfold Dielectric.scatter specDielectricScatter
    cases hf : rec.front_face with
    | none => rfl
    | some ff =>
      have hsq : ∀ m : ℝ, (1 : ℝ) - m * m = 1 - m ^ 2 := fun m => by ring
      simp only [neg_min_one, hsq]

/-- C2, counterexample to the formula as stated.  At `v = (0,0,2)`,
`n = (0,0,1)`, `η = 1` the code clamps the dot product from above before
negating and returns `(0,0,1)` while the claimed `min(−v·n, 1)` clamp
gives `(0,0,−1)`; at `v = (1,0,0)`, `n = (0,0,1)`, `η = 2` the claimed
`r∥` takes the square root of the negative `1 − ‖r⊥‖²` (a float NaN)
while the code's absolute value yields `−√3` in the z-component. -/
theorem refract_formula_counterexample :
    Vec3.refract ⟨0, 0, 2⟩ ⟨0, 0, 1⟩ 1 ≠ specRefractClaimed ⟨0, 0, 2⟩ ⟨0, 0, 1⟩ 1 ∧
    Vec3.refract ⟨1, 0, 0⟩ ⟨0, 0, 1⟩ 2 ≠ specRefractClaimed ⟨1, 0, 0⟩ ⟨0, 0, 1⟩ 2 := by
  constructor
  · have hcode : Vec3.refract ⟨0, 0, 2⟩ ⟨0, 0, 1⟩ 1 = ⟨0, 0, 1⟩ := by
      simp only [Vec3.refract, Vec3.dot, Vec3.mulS, Vec3.add_def, Vec3.length_squared]
      norm_num [min_def, Real.sqrt_zero]
    have hspec : specRefractClaimed ⟨0, 0, 2⟩ ⟨0, 0, 1⟩ 1 = ⟨0, 0, -1⟩ := by
      simp only [specRefractClaimed, Vec3.dot, Vec3.mulS, Vec3.add_def, Vec3.length_squared]
      norm_num [min_def, Real.sqrt_one]
    rw [hcode, hspec]
    intro h
    have hz := congrArg Vec3.z h
    norm_num at hz
  · have hcode : Vec3.refract ⟨1, 0, 0⟩ ⟨0, 0, 1⟩ 2 = ⟨2, 0, -Real.sqrt 3⟩ := by
      simp only [Vec3.refract, Vec3.dot, Vec3.mulS, Vec3.add_def, Vec3.length_squared]
      norm_num [min_def]
    have hspec : specRefractClaimed ⟨1, 0, 0⟩ ⟨0, 0, 1⟩ 2 = ⟨2, 0, 0⟩ := by
      have h3 : Real.sqrt (-3) = 0 := Real.sqrt_eq_zero'.mpr (by norm_num)
      simp only [specRefractClaimed, Vec3.dot, Vec3.mulS, Vec3.add_def, Vec3.length_squared]
      norm_num [min_def, h3]
    rw [hcode, hspec]
    intro h
    have hz := congrArg Vec3.z h
    have hpos : (0 : ℝ) < Real.sqrt 3 := Real.sqrt_pos.mpr (by norm_num)
    simp only at hz
    linarith [hz]

/-! ### Root selection lemmas for the sphere query -/

theorem Sphere.chosenT_some_bounds {s : Sphere} {ray : Ray} {t_min : ℝ}
    {t_max : WithTop ℝ} {t : ℝ} (h : s.chosenT ray t_min t_max = some t) :
    t_min ≤ t ∧ (t : WithTop ℝ) ≤ t_max := by
  simp only [chosenT] at h
  split_ifs at h with h1 h2 h3
  · obtain ⟨h4, h5⟩ := not_or.1 h3
    obtain rfl : _ = t := Option.some.inj h
    exact ⟨not_lt.1 h4, not_lt.1 h5⟩
  · obtain ⟨h4, h5⟩ := not_or.1 h2
    obtain rfl : _ = t := Option.some.inj h
    exact ⟨not_lt.1 h4, not_lt.1 h5⟩

theorem Sphere.chosenT_shrink (s : Sphere) (ray : Ray) (t_min : ℝ)
    {t1 t2 : WithTop ℝ} (h12 : t1 ≤ t2) :
    s.chosenT ray t_min t1 =
      (s.chosenT ray t_min t2).bind fun t =>
        if (t : WithTop ℝ) ≤ t1 then some t else none := by
  simp only [chosenT]
  set a := ray.dir.length_squared with hadef
  set hb := (ray.origin - s.center).dot ray.dir with hbdef
  set cc := (ray.origin - s.center).length_squared - s.r * s.r with hccdef
  set D := hb * hb - a * cc with hDdef
  by_cases hD : D < 0
  · simp [hD]
  · simp only [if_neg hD]
    set r1 := (-hb - Real.sqrt D) / a with hr1def
    set r2 := (-hb + Real.sqrt D) / a with hr2def
    have hr : r1 ≤ r2 := by
      have hs0 : 0 ≤ Real.sqrt D := Real.sqrt_nonneg _
      have ha0 : 0 ≤ a := hadef ▸ Vec3.length_squared_nonneg _
      rcases eq_or_lt_of_le ha0 with h0 | h0
      · rw [hr1def, hr2def, ← h0, div_zero, div_zero]
      · rw [hr1def, hr2def]
        exact (div_le_div_right h0).mpr (by linarith)
    have hcoe12 : (r1 : WithTop ℝ) ≤ (r2 : WithTop ℝ) := WithTop.coe_le_coe.2 hr
    by_cases hm1 : r1 < t_min
    · rw [if_pos (Or.inl hm1), if_pos (Or.inl hm1)]
      by_cases hm2 : r2 < t_min
      · rw [if_pos (Or.inl hm2), if_pos (Or.inl hm2)]; rfl
      · by_cases h2u : t2 < (r2 : WithTop ℝ)
        · rw [if_pos (Or.inr h2u), if_pos (Or.inr (lt_of_le_of_lt h12 h2u))]; rfl
        · rw [if_neg (not_or.2 ⟨hm2, h2u⟩)]
          by_cases h1u : (r2 : WithTop ℝ) ≤ t1
          · rw [if_neg (not_or.2 ⟨hm2, not_lt.2 h1u⟩)]
            simp [h1u]
          · rw [if_pos (Or.inr (not_le.1 h1u))]
            simp [h1u]
    · by_cases h2u1 : t2 < (r1 : WithTop ℝ)
      · have hr1t1 : t1 < (r1 : WithTop ℝ) := lt_of_le_of_lt h12 h2u1
        rw [if_pos (Or.inr h2u1), if_pos (Or.inr hr1t1),
            if_pos (Or.inr (lt_of_lt_of_le h2u1 hcoe12)),
            if_pos (Or.inr (lt_of_lt_of_le hr1t1 hcoe12))]
        rfl
      · rw [if_neg (not_or.2 ⟨hm1, h2u1⟩)]
        by_cases h1u1 : (r1 : WithTop ℝ) ≤ t1
        · rw [if_neg (not_or.2 ⟨hm1, not_lt.2 h1u1⟩)]
          simp [h1u1]
        · rw [if_pos (Or.inr (not_le.1 h1u1)),
              if_pos (Or.inr (lt_of_lt_of_le (not_le.1 h1u1) hcoe12))]
          simp [h1u1]

theorem Hittable.chosenT_le_bounds {h : Hittable} {ray : Ray} {t_min : ℝ}
    {t_max : WithTop ℝ} {t : ℝ} (hc : h.chosenT ray t_min t_max = some t) :
    t_min ≤ t ∧ (t : WithTop ℝ) ≤ t_max := by
  cases h with
  | sphere s => exact Sphere.chosenT_some_bounds hc

theorem Hittable.chosenT_shrink_bind (h : Hittable) (ray : Ray) (t_min : ℝ)
    {t1 t2 : WithTop ℝ} (h12 : t1 ≤ t2) :
    h.chosenT ray t_min t1 =
      (h.chosenT ray t_min t2).bind fun t =>
        if (t : WithTop ℝ) ≤ t1 then some t else none := by
  cases h with
  | sphere s => exact s.chosenT_shrink ray t_min h12

/-- Shrinking the interval preserves a candidate that still fits. -/
theorem Hittable.chosenT_shrink_some {h : Hittable} {ray : Ray} {t_min : ℝ}
    {t1 t2 : WithTop ℝ} (h12 : t1 ≤ t2) {t : ℝ}
    (hc : h.chosenT ray t_min t2 = some t) (hfit : (t : WithTop ℝ) ≤ t1) :
    h.chosenT ray t_min t1 = some t := by
  rw [h.chosenT_shrink_bind ray t_min h12, hc]
  simp [hfit]

/-- Conversely, a candidate found in the shrunken interval is the
candidate of the wider interval. -/
theorem Hittable.chosenT_widen_some {h : Hittable} {ray : Ray} {t_min : ℝ}
    {t1 t2 : WithTop ℝ} (h12 : t1 ≤ t2) {t : ℝ}
    (hc : h.chosenT ray t_min t1 = some t) :
    h.chosenT ray t_min t2 = some t := by
  rw [h.chosenT_shrink_bind ray t_min h12] at hc
  cases hw : h.chosenT ray t_min t2 with
  | none => rw [hw] at hc; exact absurd hc (by simp)
  | some u =>
    rw [hw] at hc
    by_cases hu : (u : WithTop ℝ) ≤ t1
    · simp [hu] at hc; rw [hc]
    · simp [hu] at hc

/-! ### The closest-hit fold of `HitList::hit` -/

theorem Hittable.mkHitRecord_param_t (h : Hittable) (ray : Ray) (t : ℝ) :
    (h.mkHitRecord ray t).t = t := by
  cases h with
  | sphere s => rfl

theorem hitLoop_eq_bestFrom (ray : Ray) (t_min : ℝ) (l : List Hittable) :
    ∀ (temp : HitRecord) (hit_anything : Bool) (closest : WithTop ℝ) (rec : HitRecord),
      hitLoop ray t_min l temp hit_anything closest rec =
        match bestFrom ray t_min l closest with
        | none => (hit_anything, rec)
        | some (h, t) => (true, h.mkHitRecord ray t) := by
  induction l with
  | nil => intro temp hit_anything closest rec; rfl
  | cons hd rest ih =>
    intro temp hit_anything closest rec
    rw [hitLoop, bestFrom]
    rw [hd.hit_eq_chosen ray t_min closest temp]
    cases hc : hd.chosenT ray t_min closest with
    | none =>
      simp only
      rw [if_neg (by simp)]
      exact ih temp hit_anything closest rec
    | some t =>
      simp only
      rw [if_pos (by simp)]
      rw [hd.mkHitRecord_param_t ray t]
      rw [ih (hd.mkHitRecord ray t) true ((t : ℝ) : WithTop ℝ) (hd.mkHitRecord ray t)]
      cases hb : bestFrom ray t_min rest ((t : ℝ) : WithTop ℝ) with
      | none => rfl
      | some p => cases p; rfl

theorem bestFrom_some_bounds (ray : Ray) (t_min : ℝ) (l : List Hittable) :
    ∀ (closest : WithTop ℝ) (h : Hittable) (t : ℝ),
      bestFrom ray t_min l closest = some (h, t) →
        t_min ≤ t ∧ (t : WithTop ℝ) ≤ closest := by
  induction l with
  | nil => intro closest h t hb; exact absurd hb (by simp [bestFrom])
  | cons hd rest ih =>
    intro closest h t hb
    rw [bestFrom] at hb
    cases hc : hd.chosenT ray t_min closest with
    | none => rw [hc] at hb; exact ih closest h t hb
    | some t0 =>
      rw [hc] at hb
      have hb' := Option.some.inj hb
      obtain ⟨hmin0, hmax0⟩ := Hittable.chosenT_le_bounds hc
      cases hrest : bestFrom ray t_min rest ((t0 : ℝ) : WithTop ℝ) with
      | none =>
        rw [hrest] at hb'
        simp only [Option.getD_none] at hb'
        injection hb' with h1 h2
        subst h1; subst h2
        exact ⟨hmin0, hmax0⟩
      | some p =>
        obtain ⟨h', t'⟩ := p
        rw [hrest] at hb'
        simp only [Option.getD_some] at hb'
        injection hb' with h1 h2
        subst h1; subst h2
        obtain ⟨ihmin, ihmax⟩ := ih _ h' t' hrest
        exact ⟨ihmin, le_trans ihmax hmax0⟩

theorem bestFrom_eq_none_iff (ray : Ray) (t_min : ℝ) (l : List Hittable) :
    ∀ closest : WithTop ℝ,
      bestFrom ray t_min l closest = none ↔
        ∀ g ∈ l, g.chosenT ray t_min closest = none := by
  induction l with
  | nil => intro closest; simp [bestFrom]
  | cons hd rest ih =>
    intro closest
    rw [bestFrom]
    cases hc : hd.chosenT ray t_min closest with
    | none =>
      simp only
      constructor
      · intro hnone g hg
        rcases List.mem_cons.1 hg with rfl | hg'
        · exact hc
        · exact (ih closest).1 hnone g hg'
      · intro hall
        exact (ih closest).2 fun g hg => hall g (List.mem_cons_of_mem _ hg)
    | some t0 =>
      simp only
      constructor
      · intro hnone; exact absurd hnone (by simp)
      · intro hall
        exact absurd (hall hd (List.mem_cons_self _ _)) (by simp [hc])

theorem bestFrom_min (ray : Ray) (t_min : ℝ) (l : List Hittable) :
    ∀ (closest : WithTop ℝ) (h : Hittable) (t : ℝ),
      bestFrom ray t_min l closest = some (h, t) →
        ∀ g ∈ l, ∀ u, g.chosenT ray t_min closest = some u → t ≤ u := by
  induction l with
  | nil => intro closest h t hb; exact absurd hb (by simp [bestFrom])
  | cons hd rest ih =>
    intro closest h t hb g hg u hu
    rw [bestFrom] at hb
    cases hc : hd.chosenT ray t_min closest with
    | none =>
      rw [hc] at hb
      rcases List.mem_cons.1 hg with rfl | hg'
      · rw [hc] at hu; exact absurd hu (by simp)
      · exact ih closest h t hb g hg' u hu
    | some t0 =>
      rw [hc] at hb
      have hb' := Option.some.inj hb
      have ht0c : ((t0 : ℝ) : WithTop ℝ) ≤ closest := (Hittable.chosenT_le_bounds hc).2
      have htt0 : t ≤ t0 := by
        cases hrest : bestFrom ray t_min rest ((t0 : ℝ) : WithTop ℝ) with
        | none =>
          rw [hrest] at hb'
          simp only [Option.getD_none] at hb'
          injection hb' with h1 h2
          subst h2
          exact le_refl _
        | some p =>
          obtain ⟨h', t'⟩ := p
          rw [hrest] at hb'
          simp only [Option.getD_some] at hb'
          injection hb' with h1 h2
          subst h2
          exact WithTop.coe_le_coe.1 (bestFrom_some_bounds ray t_min rest _ h' _ hrest).2
      rcases List.mem_cons.1 hg with rfl | hg'
      · rw [hc] at hu
        obtain rfl : t0 = u := Option.some.inj hu
        exact htt0
      · by_cases hut0 : (u : WithTop ℝ) ≤ ((t0 : ℝ) : WithTop ℝ)
        · have hshru : g.chosenT ray t_min ((t0 : ℝ) : WithTop ℝ) = some u :=
            Hittable.chosenT_shrink_some ht0c hu hut0
          cases hrest : bestFrom ray t_min rest ((t0 : ℝ) : WithTop ℝ) with
          | none =>
            have := (bestFrom_eq_none_iff ray t_min rest _).1 hrest g hg'
            rw [this] at hshru
            exact absurd hshru (by simp)
          | some p =>
            obtain ⟨h', t'⟩ := p
            rw [hrest] at hb'
            simp only [Option.getD_some] at hb'
            injection hb' with h1 h2
            subst h2
            exact ih _ h' _ hrest g hg' u hshru
        · have : t0 < u := WithTop.coe_lt_coe.1 (not_le.1 hut0)
          linarith

theorem bestFrom_last (ray : Ray) (t_min : ℝ) (l : List Hittable) :
    ∀ (closest : WithTop ℝ) (h : Hittable) (t : ℝ),
      bestFrom ray t_min l closest = some (h, t) →
        ∃ i, l.get? i = some h ∧ h.chosenT ray t_min closest = some t ∧
          ∀ j g, i < j → l.get? j = some g →
            g.chosenT ray t_min closest ≠ some t := by
  induction l with
  | nil => intro closest h t hb; exact absurd hb (by simp [bestFrom])
  | cons hd rest ih =>
    intro closest h t hb
    rw [bestFrom] at hb
    cases hc : hd.chosenT ray t_min closest with
    | none =>
      rw [hc] at hb
      obtain ⟨i, hgi, hci, hlast⟩ := ih closest h t hb
      refine ⟨i + 1, by simpa using hgi, hci, ?_⟩
      intro j g hij hgj
      cases j with
      | zero => omega
      | succ k =>
        have hk : rest.get? k = some g := by simpa using hgj
        exact hlast k g (by omega) hk
    | some t0 =>
      rw [hc] at hb
      have hb' := Option.some.inj hb
      have ht0c : ((t0 : ℝ) : WithTop ℝ) ≤ closest := (Hittable.chosenT_le_bounds hc).2
      cases hrest : bestFrom ray t_min rest ((t0 : ℝ) : WithTop ℝ) with
      | none =>
        rw [hrest] at hb'
        simp only [Option.getD_none] at hb'
        injection hb' with h1 h2
        subst h1; subst h2
        refine ⟨0, rfl, hc, ?_⟩
        intro j g hij hgj hgc
        cases j with
        | zero => omega
        | succ k =>
          have hk : rest.get? k = some g := by simpa using hgj
          have hg : g ∈ rest := List.get?_mem hk
          have hsh : g.chosenT ray t_min ((t0 : ℝ) : WithTop ℝ) = some t0 :=
            Hittable.chosenT_shrink_some ht0c hgc (le_refl _)
          have := (bestFrom_eq_none_iff ray t_min rest _).1 hrest g hg
          rw [this] at hsh
          exact absurd hsh (by simp)
      | some p =>
        obtain ⟨h', t'⟩ := p
        rw [hrest] at hb'
        simp only [Option.getD_some] at hb'
        injection hb' with h1 h2
        subst h1; subst h2
        obtain ⟨i, hgi, hci, hlast⟩ := ih _ h' _ hrest
        have ht' : ((t' : ℝ) : WithTop ℝ) ≤ ((t0 : ℝ) : WithTop ℝ) :=
          (bestFrom_some_bounds ray t_min rest _ h' _ hrest).2
        have hcw : h'.chosenT ray t_min closest = some t' :=
          Hittable.chosenT_widen_some ht0c hci
        refine ⟨i + 1, by simpa using hgi, hcw, ?_⟩
        intro j g hij hgj hgc
        cases j with
        | zero => omega
        | succ k =>
          have hk : rest.get? k = some g := by simpa using hgj
          have hsh : g.chosenT ray t_min ((t0 : ℝ) : WithTop ℝ) = some t' :=
            Hittable.chosenT_shrink_some ht0c hgc ht'
          exact hlast k g (by omega) hk hsh

/-! ### C1: the hit-list query returns the closest hit -/

/-- C1, amended.  The hit-list query reports a hit exactly when some
primitive hits in the interval; the recorded `t` is the minimum of the
individual primitive hits in `[t_min, t_max]`; and when several
primitives attain that same minimal `t`, the returned record comes from
the **last** such primitive in the list (each accepted hit shrinks
`closest_so_far` to its `t`, and the acceptance test `t_max < root` lets a
later primitive re-reach the same `t`), not the first as claimed. -/
theorem hitlist_min_t_last_tie (l : HitList) (ray : Ray) (t_min : ℝ)
    (t_max : WithTop ℝ) (rec : HitRecord) :
    ((l.hit ray t_min t_max rec).1 = true ↔
       ∃ g ∈ l, (g.chosenT ray t_min t_max).isSome) ∧
    ((l.hit ray t_min t_max rec).1 = true →
       (∀ g ∈ l, ∀ u, g.chosenT ray t_min t_max = some u →
          (l.hit ray t_min t_max rec).2.t ≤ u) ∧
       (∃ i h2, l.get? i = some h2 ∧
          h2.chosenT ray t_min t_max = some (l.hit ray t_min t_max rec).2.t ∧
          (l.hit ray t_min t_max rec).2 =
            h2.mkHitRecord ray (l.hit ray t_min t_max rec).2.t ∧
          ∀ j g, i < j → l.get? j = some g →
            g.chosenT ray t_min t_max ≠ some (l.hit ray t_min t_max rec).2.t)) := by
  have heq := hitLoop_eq_bestFrom ray t_min l HitRecord.empty false t_max rec
  cases hb : bestFrom ray t_min l t_max with
  | none =>
    have hres : l.hit ray t_min t_max rec = (false, rec) := by
      rw [HitList.hit, heq, hb]
    rw [hres]
    constructor
    · constructor
      · intro hfalse; exact absurd hfalse (by simp)
      · rintro ⟨g, hg, hgs⟩
        have hnone := (bestFrom_eq_none_iff ray t_min l t_max).1 hb g hg
        rw [hnone] at hgs
        exact absurd hgs (by simp)
    · intro hfalse; exact absurd hfalse (by simp)
  | some p =>
    obtain ⟨h0, t0⟩ := p
    have hres : l.hit ray t_min t_max rec = (true, h0.mkHitRecord ray t0) := by
      rw [HitList.hit, heq, hb]
    obtain ⟨i, hgi, hci, hlast⟩ := bestFrom_last ray t_min l t_max h0 t0 hb
    rw [hres]
    simp only [Hittable.mkHitRecord_param_t]
    refine ⟨⟨fun _ => ⟨h0, List.get?_mem hgi, by simp [hci]⟩, fun _ => by trivial⟩,
           fun _ => ?_⟩
    exact ⟨fun g hg u hu => bestFrom_min ray t_min l t_max h0 t0 hb g hg u hu,
           i, h0, hgi, hci, by trivial, hlast⟩

theorem Sphere.mkHitRecord_t (s : Sphere) (ray : Ray) (t : ℝ) :
    (s.mkHitRecord ray t).t = t := rfl

/-- C1, counterexample to the tie-break as claimed.  Two coincident unit
spheres at `(0,0,−2)` with different metal albedos are both hit by the ray
from the origin along `(0,0,−1)` at the same minimal `t = 1`, yet the
hit-list query returns the record of the *second* sphere, which differs
from the first sphere's record. -/
theorem hitlist_tie_counterexample :
    Sphere.chosenT ⟨⟨0, 0, -2⟩, 1, .metal ⟨⟨1, 0, 0⟩⟩⟩ ⟨Vec3.ORIGIN, ⟨0, 0, -1⟩⟩ 0 ⊤ =
        some 1 ∧
    Sphere.chosenT ⟨⟨0, 0, -2⟩, 1, .metal ⟨⟨0, 1, 0⟩⟩⟩ ⟨Vec3.ORIGIN, ⟨0, 0, -1⟩⟩ 0 ⊤ =
        some 1 ∧
    (HitList.hit [.sphere ⟨⟨0, 0, -2⟩, 1, .metal ⟨⟨1, 0, 0⟩⟩⟩,
                  .sphere ⟨⟨0, 0, -2⟩, 1, .metal ⟨⟨0, 1, 0⟩⟩⟩]
        ⟨Vec3.ORIGIN, ⟨0, 0, -1⟩⟩ 0 ⊤ HitRecord.empty).2 =
      Sphere.mkHitRecord ⟨⟨0, 0, -2⟩, 1, .metal ⟨⟨0, 1, 0⟩⟩⟩ ⟨Vec3.ORIGIN, ⟨0, 0, -1⟩⟩ 1 ∧
    Sphere.mkHitRecord ⟨⟨0, 0, -2⟩, 1, .metal ⟨⟨0, 1, 0⟩⟩⟩ ⟨Vec3.ORIGIN, ⟨0, 0, -1⟩⟩ 1 ≠
      Sphere.mkHitRecord ⟨⟨0, 0, -2⟩, 1, .metal ⟨⟨1, 0, 0⟩⟩⟩ ⟨Vec3.ORIGIN, ⟨0, 0, -1⟩⟩ 1 := by
  have e1 : Sphere.chosenT ⟨⟨0, 0, -2⟩, 1, .metal ⟨⟨1, 0, 0⟩⟩⟩
      ⟨Vec3.ORIGIN, ⟨0, 0, -1⟩⟩ 0 ⊤ = some 1 := by
    simp only [Sphere.chosenT, Vec3.ORIGIN, Vec3.sub_def, Vec3.dot, Vec3.length_squared]
    norm_num [Real.sqrt_one, not_top_lt]
  have e2 : Sphere.chosenT ⟨⟨0, 0, -2⟩, 1, .metal ⟨⟨0, 1, 0⟩⟩⟩
      ⟨Vec3.ORIGIN, ⟨0, 0, -1⟩⟩ 0 ⊤ = some 1 := by
    simp only [Sphere.chosenT, Vec3.ORIGIN, Vec3.sub_def, Vec3.dot, Vec3.length_squared]
    norm_num [Real.sqrt_one, not_top_lt]
  have e2s : Sphere.chosenT ⟨⟨0, 0, -2⟩, 1, .metal ⟨⟨0, 1, 0⟩⟩⟩
      ⟨Vec3.ORIGIN, ⟨0, 0, -1⟩⟩ 0 (1 : WithTop ℝ) = some 1 := by
    simp only [Sphere.chosenT, Vec3.ORIGIN, Vec3.sub_def, Vec3.dot, Vec3.length_squared]
    norm_num [Real.sqrt_one, WithTop.coe_one, WithTop.coe_lt_coe]
  have hs1 : Sphere.hit ⟨⟨0, 0, -2⟩, 1, .metal ⟨⟨1, 0, 0⟩⟩⟩ ⟨Vec3.ORIGIN, ⟨0, 0, -1⟩⟩
      0 ⊤ HitRecord.empty =
      (true, Sphere.mkHitRecord ⟨⟨0, 0, -2⟩, 1, .metal ⟨⟨1, 0, 0⟩⟩⟩
        ⟨Vec3.ORIGIN, ⟨0, 0, -1⟩⟩ 1) := by
    rw [Sphere.hit_eq_chosenT, e1]
  have hs2 : Sphere.hit ⟨⟨0, 0, -2⟩, 1, .metal ⟨⟨0, 1, 0⟩⟩⟩ ⟨Vec3.ORIGIN, ⟨0, 0, -1⟩⟩
      0 (1 : WithTop ℝ)
      (Sphere.mkHitRecord ⟨⟨0, 0, -2⟩, 1, .metal ⟨⟨1, 0, 0⟩⟩⟩ ⟨Vec3.ORIGIN, ⟨0, 0, -1⟩⟩ 1) =
      (true, Sphere.mkHitRecord ⟨⟨0, 0, -2⟩, 1, .metal ⟨⟨0, 1, 0⟩⟩⟩
        ⟨Vec3.ORIGIN, ⟨0, 0, -1⟩⟩ 1) := by
    rw [Sphere.hit_eq_chosenT, e2s]
  refine ⟨e1, e2, ?_, ?_⟩
  · simp [HitList.hit, hitLoop, Hittable.hit, hs1, Sphere.mkHitRecord_t, hs2]
  · intro h
    have hmat := congrArg HitRecord.material h
    simp only [Sphere.mkHitRecord, HitRecord.set_face_normal] at hmat
    simp only [MatKind.metal.injEq, Metal.mk.injEq, Vec3.mk.injEq] at hmat
    norm_num at hmat

/-- Witness for C1 (amended): a single sphere hit at `t = 1` from the
origin; the query reports a hit and the recorded `t` is minimal. -/
theorem hitlist_min_t_last_tie_witness :
    (HitList.hit [.sphere ⟨⟨0, 0, -2⟩, 1, MatKind.defaultMat⟩]
        ⟨Vec3.ORIGIN, ⟨0, 0, -1⟩⟩ 0 ⊤ HitRecord.empty).1 = true ∧
    (∀ g ∈ ([.sphere ⟨⟨0, 0, -2⟩, 1, MatKind.defaultMat⟩] : HitList), ∀ u,
        g.chosenT ⟨Vec3.ORIGIN, ⟨0, 0, -1⟩⟩ 0 ⊤ = some u →
        (HitList.hit [.sphere ⟨⟨0, 0, -2⟩, 1, MatKind.defaultMat⟩]
            ⟨Vec3.ORIGIN, ⟨0, 0, -1⟩⟩ 0 ⊤ HitRecord.empty).2.t ≤ u) := by
  have e1 : Sphere.chosenT ⟨⟨0, 0, -2⟩, 1, MatKind.defaultMat⟩
      ⟨Vec3.ORIGIN, ⟨0, 0, -1⟩⟩ 0 ⊤ = some 1 := by
    simp only [Sphere.chosenT, Vec3.ORIGIN, Vec3.sub_def, Vec3.dot, Vec3.length_squared]
    norm_num [Real.sqrt_one, not_top_lt]
  have hs1 : Sphere.hit ⟨⟨0, 0, -2⟩, 1, MatKind.defaultMat⟩ ⟨Vec3.ORIGIN, ⟨0, 0, -1⟩⟩
      0 ⊤ HitRecord.empty =
      (true, Sphere.mkHitRecord ⟨⟨0, 0, -2⟩, 1, MatKind.defaultMat⟩
        ⟨Vec3.ORIGIN, ⟨0, 0, -1⟩⟩ 1) := by
    rw [Sphere.hit_eq_chosenT, e1]
  have htrue : (HitList.hit [.sphere ⟨⟨0, 0, -2⟩, 1, MatKind.defaultMat⟩]
      ⟨Vec3.ORIGIN, ⟨0, 0, -1⟩⟩ 0 ⊤ HitRecord.empty).1 = true := by
    simp [HitList.hit, hitLoop, Hittable.hit, hs1]
  exact ⟨htrue,
    ((hitlist_min_t_last_tie [.sphere ⟨⟨0, 0, -2⟩, 1, MatKind.defaultMat⟩]
        ⟨Vec3.ORIGIN, ⟨0, 0, -1⟩⟩ 0 ⊤ HitRecord.empty).2 htrue).1⟩

/-! ### C4: invariants of the sphere hit record -/

theorem Vec3.divS_length_squared (v : Vec3) (k : ℝ) :
    (v.divS k).length_squared = v.length_squared / (k * k) := by
  simp only [Vec3.divS, Vec3.length_squared, div_mul_div_comm, div_add_div_same]

theorem Sphere.chosenT_root {s : Sphere} {ray : Ray} {t_min : ℝ} {t_max : WithTop ℝ}
    {t : ℝ} (h : s.chosenT ray t_min t_max = some t) :
    0 ≤ ((ray.origin - s.center).dot ray.dir) * ((ray.origin - s.center).dot ray.dir) -
        ray.dir.length_squared * ((ray.origin - s.center).length_squared - s.r * s.r) ∧
    (t = (-((ray.origin - s.center).dot ray.dir) -
           Real.sqrt (((ray.origin - s.center).dot ray.dir) *
               ((ray.origin - s.center).dot ray.dir) -
             ray.dir.length_squared *
               ((ray.origin - s.center).length_squared - s.r * s.r))) /
          ray.dir.length_squared ∨
     t = (-((ray.origin - s.center).dot ray.dir) +
           Real.sqrt (((ray.origin - s.center).dot ray.dir) *
               ((ray.origin - s.center).dot ray.dir) -
             ray.dir.length_squared *
               ((ray.origin - s.center).length_squared - s.r * s.r))) /
          ray.dir.length_squared) := by
  simp only [chosenT] at h
  split_ifs at h with h1 h2 h3
  · exact ⟨not_lt.1 h1, Or.inr (Option.some.inj h).symm⟩
  · exact ⟨not_lt.1 h1, Or.inl (Option.some.inj h).symm⟩

theorem Sphere.hit_point_on_sphere {s : Sphere} {ray : Ray} {t_min : ℝ}
    {t_max : WithTop ℝ} {t : ℝ} (ha : ray.dir.length_squared ≠ 0)
    (h : s.chosenT ray t_min t_max = some t) :
    (ray.at t - s.center).length_squared = s.r * s.r := by
  obtain ⟨hD, hroot⟩ := Sphere.chosenT_root h
  set A := ray.dir.length_squared with hAdef
  set B := (ray.origin - s.center).dot ray.dir with hBdef
  set C0 := (ray.origin - s.center).length_squared with hC0def
  have hsq : Real.sqrt (B * B - A * (C0 - s.r * s.r)) *
      Real.sqrt (B * B - A * (C0 - s.r * s.r)) = B * B - A * (C0 - s.r * s.r) :=
    Real.mul_self_sqrt hD
  have hexp : (ray.at t - s.center).length_squared = C0 + 2 * B * t + A * (t * t) := by
    rw [hAdef, hBdef, hC0def]
    cases ray with
    | mk o d =>
      simp only [Ray.at, Vec3.add_def, Vec3.sub_def, Vec3.mulS, Vec3.length_squared,
        Vec3.dot]
      ring
  have hquad : A * (t * t) + 2 * B * t + (C0 - s.r * s.r) = 0 := by
    rcases hroot with rfl | rfl
    · field_simp
      nlinarith [hsq]
    · field_simp
      nlinarith [hsq]
  rw [hexp]
  linarith [hquad]

/-- C4.  Every successful sphere query (on a non-degenerate ray and
non-zero radius) records a unit-length normal pointing against the
incoming direction, `front_face = ((r.direction · ((hit.p − center) /
radius)) < 0)`, and a `t` inside the requested interval; the signed
division by `radius` means a negative radius inverts the outward normal
used for the test. -/
theorem sphere_hit_record_invariants (s : Sphere) (ray : Ray) (t_min : ℝ)
    (t_max : WithTop ℝ) (rec : HitRecord) (ha : ray.dir.length_squared ≠ 0)
    (hr : s.r ≠ 0) (hhit : (s.hit ray t_min t_max rec).1 = true) :
    (s.hit ray t_min t_max rec).2.normal.length = 1 ∧
    ray.dir.dot (s.hit ray t_min t_max rec).2.normal ≤ 0 ∧
    (s.hit ray t_min t_max rec).2.front_face =
      some (decide (ray.dir.dot
        (((s.hit ray t_min t_max rec).2.p - s.center).divS s.r) < 0)) ∧
    t_min ≤ (s.hit ray t_min t_max rec).2.t ∧
    ((s.hit ray t_min t_max rec).2.t : WithTop ℝ) ≤ t_max ∧
    (s.r < 0 →
      ((s.hit ray t_min t_max rec).2.p - s.center).divS s.r =
        -(((s.hit ray t_min t_max rec).2.p - s.center).divS |s.r|)) := by
  cases hc : s.chosenT ray t_min t_max with
  | none =>
    rw [s.hit_eq_chosenT ray t_min t_max rec, hc] at hhit
    exact absurd hhit (by simp)
  | some t =>
    have hres : s.hit ray t_min t_max rec = (true, s.mkHitRecord ray t) := by
      rw [s.hit_eq_chosenT, hc]
    rw [hres]
    have hon : (ray.at t - s.center).length_squared = s.r * s.r :=
      Sphere.hit_point_on_sphere ha hc
    have hmk : s.mkHitRecord ray t =
        { p := ray.at t,
          normal := if decide (ray.dir.dot ((ray.at t - s.center).divS s.r) < 0)
                    then (ray.at t - s.center).divS s.r
                    else -((ray.at t - s.center).divS s.r),
          t := t,
          material := s.material,
          front_face := some (decide (ray.dir.dot ((ray.at t - s.center).divS s.r) < 0)) } :=
      rfl
    have hols : ((ray.at t - s.center).divS s.r).length_squared = 1 := by
      rw [Vec3.divS_length_squared, hon]
      exact div_self (mul_ne_zero hr hr)
    obtain ⟨hb1, hb2⟩ := Sphere.chosenT_some_bounds hc
    have hnormal : (s.mkHitRecord ray t).normal =
        (if ray.dir.dot ((ray.at t - s.center).divS s.r) < 0
         then (ray.at t - s.center).divS s.r
         else -((ray.at t - s.center).divS s.r)) := by
      rw [hmk]
      by_cases hff : ray.dir.dot ((ray.at t - s.center).divS s.r) < 0
      · rw [if_pos (by rw [decide_eq_true_eq]; exact hff), if_pos hff]
      · rw [if_neg (by rw [decide_eq_true_eq]; exact hff), if_neg hff]
    have hlen : (s.mkHitRecord ray t).normal.length = 1 := by
      rw [hnormal]
      by_cases hff : ray.dir.dot ((ray.at t - s.center).divS s.r) < 0
      · rw [if_pos hff, Vec3.length, hols, Real.sqrt_one]
      · rw [if_neg hff, Vec3.length, Vec3.length_squared_neg, hols, Real.sqrt_one]
    have hdot : ray.dir.dot (s.mkHitRecord ray t).normal ≤ 0 := by
      rw [hnormal]
      by_cases hff : ray.dir.dot ((ray.at t - s.center).divS s.r) < 0
      · rw [if_pos hff]
        exact le_of_lt hff
      · rw [if_neg hff, Vec3.dot_neg]
        linarith [not_lt.1 hff]
    refine ⟨hlen, hdot, by rw [hmk], by rw [hmk]; exact hb1, by rw [hmk]; exact hb2, ?_⟩
    intro hneg
    rw [hmk]
    simp only [Vec3.divS, Vec3.neg_def, abs_of_neg hneg, Vec3.mk.injEq]
    refine ⟨?_, ?_, ?_⟩ <;> rw [div_neg] <;> ring

/-- Witness for C4: the unit sphere at `(0,0,−2)` hit from the origin
along `(0,0,−1)` at `t = 1`. -/
theorem sphere_hit_record_invariants_witness :
    (Ray.mk Vec3.ORIGIN ⟨0, 0, -1⟩).dir.length_squared ≠ 0 ∧
    (Sphere.mk ⟨0, 0, -2⟩ 1 MatKind.defaultMat).r ≠ 0 ∧
    (Sphere.hit ⟨⟨0, 0, -2⟩, 1, MatKind.defaultMat⟩ (Ray.mk Vec3.ORIGIN ⟨0, 0, -1⟩)
        0 ⊤ HitRecord.empty).1 = true ∧
    ((Sphere.hit ⟨⟨0, 0, -2⟩, 1, MatKind.defaultMat⟩ (Ray.mk Vec3.ORIGIN ⟨0, 0, -1⟩)
        0 ⊤ HitRecord.empty).2.normal.length = 1 ∧
     (Ray.mk Vec3.ORIGIN ⟨0, 0, -1⟩).dir.dot
        (Sphere.hit ⟨⟨0, 0, -2⟩, 1, MatKind.defaultMat⟩ (Ray.mk Vec3.ORIGIN ⟨0, 0, -1⟩)
          0 ⊤ HitRecord.empty).2.normal ≤ 0 ∧
     (Sphere.hit ⟨⟨0, 0, -2⟩, 1, MatKind.defaultMat⟩ (Ray.mk Vec3.ORIGIN ⟨0, 0, -1⟩)
        0 ⊤ HitRecord.empty).2.front_face =
       some (decide ((Ray.mk Vec3.ORIGIN ⟨0, 0, -1⟩).dir.dot
         (((Sphere.hit ⟨⟨0, 0, -2⟩, 1, MatKind.defaultMat⟩ (Ray.mk Vec3.ORIGIN ⟨0, 0, -1⟩)
             0 ⊤ HitRecord.empty).2.p - (Vec3.mk 0 0 (-2))).divS 1) < 0)) ∧
     (0 : ℝ) ≤ (Sphere.hit ⟨⟨0, 0, -2⟩, 1, MatKind.defaultMat⟩
        (Ray.mk Vec3.ORIGIN ⟨0, 0, -1⟩) 0 ⊤ HitRecord.empty).2.t ∧
     (((Sphere.hit ⟨⟨0, 0, -2⟩, 1, MatKind.defaultMat⟩ (Ray.mk Vec3.ORIGIN ⟨0, 0, -1⟩)
        0 ⊤ HitRecord.empty).2.t : ℝ) : WithTop ℝ) ≤ ⊤ ∧
     ((Sphere.mk ⟨0, 0, -2⟩ 1 MatKind.defaultMat).r < 0 →
       ((Sphere.hit ⟨⟨0, 0, -2⟩, 1, MatKind.defaultMat⟩ (Ray.mk Vec3.ORIGIN ⟨0, 0, -1⟩)
           0 ⊤ HitRecord.empty).2.p - (Vec3.mk 0 0 (-2))).divS 1 =
         -(((Sphere.hit ⟨⟨0, 0, -2⟩, 1, MatKind.defaultMat⟩ (Ray.mk Vec3.ORIGIN ⟨0, 0, -1⟩)
             0 ⊤ HitRecord.empty).2.p - (Vec3.mk 0 0 (-2))).divS |(1 : ℝ)|))) := by
  have ha : (Ray.mk Vec3.ORIGIN ⟨0, 0, -1⟩).dir.length_squared ≠ 0 := by
    norm_num [Vec3.length_squared]
  have hr1 : (Sphere.mk ⟨0, 0, -2⟩ 1 MatKind.defaultMat).r ≠ 0 := one_ne_zero
  have e1 : Sphere.chosenT ⟨⟨0, 0, -2⟩, 1, MatKind.defaultMat⟩
      (Ray.mk Vec3.ORIGIN ⟨0, 0, -1⟩) 0 ⊤ = some 1 := by
    simp only [Sphere.chosenT, Vec3.ORIGIN, Vec3.sub_def, Vec3.dot, Vec3.length_squared]
    norm_num [Real.sqrt_one, not_top_lt]
  have htrue : (Sphere.hit ⟨⟨0, 0, -2⟩, 1, MatKind.defaultMat⟩
      (Ray.mk Vec3.ORIGIN ⟨0, 0, -1⟩) 0 ⊤ HitRecord.empty).1 = true := by
    rw [Sphere.hit_eq_chosenT, e1]
  exact ⟨ha, hr1, htrue,
    sphere_hit_record_invariants ⟨⟨0, 0, -2⟩, 1, MatKind.defaultMat⟩
      (Ray.mk Vec3.ORIGIN ⟨0, 0, -1⟩) 0 ⊤ HitRecord.empty ha hr1 htrue⟩

/-! ### C6: the dielectric scatter -/

theorem Dielectric.reflectance_eq (cos ref_idx : ℝ) :
    Dielectric.reflectance cos ref_idx =
      ((1 - ref_idx) / (1 + ref_idx)) ^ 2 +
        (1 - ((1 - ref_idx) / (1 + ref_idx)) ^ 2) * (1 - cos) ^ 5 := by
  simp only [Dielectric.reflectance]
  ring

/-- C6.  On a record with a set front-face flag, the dielectric scatter
always reports `scattered = true` with near-white attenuation
`(0.98, 0.98, 0.98)` and a ray from the hit point; the outgoing direction
is the reflection of the unit incoming direction exactly when total
internal reflection holds (`η·sin θ > 1`) or the drawn uniform variate is
less than the Schlick reflectance `R₀ + (1 − R₀)·(1 − cos θ)⁵` with
`R₀ = ((1 − η)/(1 + η))²`, and is the refraction otherwise, where `η` is
`1/ir` on a front face and `ir` on a back face. -/
theorem dielectric_scatter_spec (d : Dielectric) (r_in : Ray) (rec : HitRecord)
    (rng : Rng) (ff : Bool) (hff : rec.front_face = some ff) :
    let eta := if ff then 1 / d.ir else d.ir
    let u := r_in.dir.unit_vector
    let cos_t := -(min (u.dot rec.normal) 1)
    let sin_t := Real.sqrt (1 - cos_t * cos_t)
    let r0 := ((1 - eta) / (1 + eta)) ^ 2
    let schlickR := r0 + (1 - r0) * (1 - cos_t) ^ 5
    ∃ sc rng2, d.scatter r_in rec rng = some (sc, rng2) ∧
      sc.is_scattered = true ∧
      sc.attenuation = ⟨0.98, 0.98, 0.98⟩ ∧
      sc.scattered.origin = rec.p ∧
      ((eta * sin_t > 1 ∨ rng.uni rng.idx < schlickR) →
          sc.scattered.dir = u.reflect rec.normal) ∧
      (¬(eta * sin_t > 1 ∨ rng.uni rng.idx < schlickR) →
          sc.scattered.dir = u.refract rec.normal eta) := by
  simp only [Dielectric.scatter, hff, Rng.genF64, Dielectric.reflectance_eq]
  by_cases hc1 : (if ff then 1 / d.ir else d.ir) *
      Real.sqrt (1 - -(min ((r_in.dir.unit_vector).dot rec.normal) 1) *
        -(min ((r_in.dir.unit_vector).dot rec.normal) 1)) > 1
  · rw [if_pos hc1]
    exact ⟨_, _, rfl, rfl, rfl, rfl, fun _ => rfl, fun hn => absurd (Or.inl hc1) hn⟩
  · rw [if_neg hc1]
    by_cases hc2 : rng.uni rng.idx <
        ((1 - if ff then 1 / d.ir else d.ir) / (1 + if ff then 1 / d.ir else d.ir)) ^ 2 +
          (1 - ((1 - if ff then 1 / d.ir else d.ir) /
              (1 + if ff then 1 / d.ir else d.ir)) ^ 2) *
            (1 - -(min ((r_in.dir.unit_vector).dot rec.normal) 1)) ^ 5
    · rw [if_pos hc2]
      exact ⟨_, _, rfl, rfl, rfl, rfl, fun _ => rfl, fun hn => absurd (Or.inr hc2) hn⟩
    · rw [if_neg hc2]
      refine ⟨_, _, rfl, rfl, rfl, rfl, fun hcon => ?_, fun _ => rfl⟩
      rcases hcon with h1 | h2
      · exact absurd h1 hc1
      · exact absurd h2 hc2

/-- Witness for C6 at a concrete glass sphere hit (`ir = 3`, front face,
head-on ray, uniform variate `1/2`). -/
theorem dielectric_scatter_spec_witness :
    (HitRecord.mk ⟨0, 0, -1⟩ ⟨0, 0, 1⟩ 1 MatKind.defaultMat (some true)).front_face =
        some true ∧
    (let eta := if true then 1 / (Dielectric.mk 3).ir else (Dielectric.mk 3).ir
     let u := (Ray.mk ⟨0, 0, 0⟩ ⟨0, 0, -1⟩).dir.unit_vector
     let cos_t := -(min (u.dot (HitRecord.mk ⟨0, 0, -1⟩ ⟨0, 0, 1⟩ 1 MatKind.defaultMat
         (some true)).normal) 1)
     let sin_t := Real.sqrt (1 - cos_t * cos_t)
     let r0 := ((1 - eta) / (1 + eta)) ^ 2
     let schlickR := r0 + (1 - r0) * (1 - cos_t) ^ 5
     ∃ sc rng2, (Dielectric.mk 3).scatter (Ray.mk ⟨0, 0, 0⟩ ⟨0, 0, -1⟩)
         (HitRecord.mk ⟨0, 0, -1⟩ ⟨0, 0, 1⟩ 1 MatKind.defaultMat (some true))
         (Rng.mk 0 (fun _ => 1 / 2) (fun _ => Vec3.ORIGIN)) = some (sc, rng2) ∧
       sc.is_scattered = true ∧
       sc.attenuation = ⟨0.98, 0.98, 0.98⟩ ∧
       sc.scattered.origin = (HitRecord.mk ⟨0, 0, -1⟩ ⟨0, 0, 1⟩ 1 MatKind.defaultMat
         (some true)).p ∧
       ((eta * sin_t > 1 ∨
           (Rng.mk 0 (fun _ => 1 / 2) (fun _ => Vec3.ORIGIN)).uni
             (Rng.mk 0 (fun _ => 1 / 2) (fun _ => Vec3.ORIGIN)).idx < schlickR) →
           sc.scattered.dir = u.reflect (HitRecord.mk ⟨0, 0, -1⟩ ⟨0, 0, 1⟩ 1
             MatKind.defaultMat (some true)).normal) ∧
       (¬(eta * sin_t > 1 ∨
           (Rng.mk 0 (fun _ => 1 / 2) (fun _ => Vec3.ORIGIN)).uni
             (Rng.mk 0 (fun _ => 1 / 2) (fun _ => Vec3.ORIGIN)).idx < schlickR) →
           sc.scattered.dir = u.refract (HitRecord.mk ⟨0, 0, -1⟩ ⟨0, 0, 1⟩ 1
             MatKind.defaultMat (some true)).normal eta)) :=
  ⟨rfl, dielectric_scatter_spec (Dielectric.mk 3) (Ray.mk ⟨0, 0, 0⟩ ⟨0, 0, -1⟩)
    (HitRecord.mk ⟨0, 0, -1⟩ ⟨0, 0, 1⟩ 1 MatKind.defaultMat (some true))
    (Rng.mk 0 (fun _ => 1 / 2) (fun _ => Vec3.ORIGIN)) true rfl⟩
